import Mathlib

/-!
# Collapsible Code Blocks — verification of the live-editing fold core

Shallow embedding of the fold/decoration state management of the
`collapsible-code-blocks` editor plugin (source: `src/editView.ts` and the
plugin command in `main.ts`), together with proofs and refutations of the
specification's claims about it.

Modelling conventions:

* A CodeMirror `DecorationSet` holding the fold replace-decorations is
  modelled as a list of `FoldSpan` (each entry means "this span is folded";
  an unfolded span simply has no entry).  `RangeSet.update {add}` keeps the
  set sorted by start position, which `insertSpan` mirrors.
* `RangeSet.between(from, to, f)` visits every range that overlaps or
  touches the queried range (`range.from <= to && from <= range.to`); this
  is `rangeTouches`.
* A `StateEffect` of `toggleFoldEffect` is `ToggleFoldEffect`
  (`defaultState?: boolean` becomes `Option Bool`).
* A document is a list of lines (`List String`); character offsets count
  one `\n` between consecutive lines, as in CodeMirror's `Text`.
-/

/-- A fold entry of the fold `StateField`: the `(from, to)` character range
of a folded code block.  Field names follow the filter callback
`(fromPos, toPos)` in `createFoldField`. -/
structure FoldSpan where
  fromPos : Nat
  toPos : Nat
deriving DecidableEq, Repr

/-- The payload of `toggleFoldEffect`:
`{from: number, to: number, defaultState?: boolean}`.
`defaultState = none` requests a toggle, `some true` a force-collapse,
`some false` a force-expand. -/
structure ToggleFoldEffect where
  fromPos : Nat
  toPos : Nat
  defaultState : Option Bool
deriving DecidableEq, Repr

/-- `RangeSet.between(qFrom, qTo)` visits a range iff it overlaps or touches
the queried range: `s.from <= qTo && qFrom <= s.to`. -/
def rangeTouches (s : FoldSpan) (qFrom qTo : Nat) : Bool :=
  decide (s.fromPos ≤ qTo) && decide (qFrom ≤ s.toPos)

/-- `folds.between(from, to, () => { hasFold = true })`: does any entry of
the fold set overlap or touch the queried range?  This is also how
`FoldWidget.toDOM` queries whether a block is folded. -/
def isFolded (folds : List FoldSpan) (qFrom qTo : Nat) : Bool :=
  folds.any (fun s => rangeTouches s qFrom qTo)

/-- `folds.update({add: [deco.range(from, to)]})`: a `RangeSet` stores its
ranges sorted by start position, so the new range is inserted at its sorted
position. -/
def insertSpan : List FoldSpan → FoldSpan → List FoldSpan
  | [], s => [s]
  | x :: xs, s => if s.fromPos < x.fromPos then s :: x :: xs else x :: insertSpan xs s

/-- One iteration of the effect loop in `createFoldField.update`
(`src/editView.ts:114-214`):

```
let hasFold = false
folds.between(from, to, () => { hasFold = true })
const shouldFold = defaultState !== undefined ? defaultState : !hasFold
if (!shouldFold) {
  folds = folds.update({ filter: (fromPos, toPos) => fromPos !== from || toPos !== to })
} else if (!hasFold) {
  folds = folds.update({ add: [deco.range(from, to)] })
}
```
-/
def applyToggleEffect (folds : List FoldSpan) (e : ToggleFoldEffect) : List FoldSpan :=
  let hasFold := folds.any (fun s => rangeTouches s e.fromPos e.toPos)
  let shouldFold := e.defaultState.getD (!hasFold)
  if !shouldFold then
    folds.filter (fun s => !(decide (s.fromPos = e.fromPos) && decide (s.toPos = e.toPos)))
  else if !hasFold then
    insertSpan folds ⟨e.fromPos, e.toPos⟩
  else
    folds

/-- Membership in `insertSpan` is membership in the original list or being
the inserted span. -/
theorem mem_insertSpan {l : List FoldSpan} {s a : FoldSpan} :
    a ∈ insertSpan l s ↔ a = s ∨ a ∈ l := by
  induction l with
  | nil => simp [insertSpan]
  | cons x xs ih =>
    simp only [insertSpan]
    split
    · simp
    · simp [ih]; tauto

theorem any_insertSpan (l : List FoldSpan) (s : FoldSpan) (p : FoldSpan → Bool) :
    (insertSpan l s).any p = (p s || l.any p) := by
  induction l with
  | nil => simp [insertSpan]
  | cons x xs ih =>
    simp only [insertSpan]
    split
    · simp
    · simp [ih, Bool.or_left_comm]

theorem isFolded_insertSpan (l : List FoldSpan) (s : FoldSpan) (f t : Nat) :
    isFolded (insertSpan l s) f t = (rangeTouches s f t || isFolded l f t) :=
  any_insertSpan l s _

/-- Characterization of a toggle request (`defaultState` undefined):
if any entry overlaps the request it removes exact matches, otherwise it
inserts the requested span. -/
theorem applyToggleEffect_none (folds : List FoldSpan) (f t : Nat) :
    applyToggleEffect folds ⟨f, t, none⟩ =
      if folds.any (fun s => rangeTouches s f t) then
        folds.filter (fun s => !(decide (s.fromPos = f) && decide (s.toPos = t)))
      else insertSpan folds ⟨f, t⟩ := by
  simp only [applyToggleEffect, Option.getD]
  cases h : folds.any (fun s => rangeTouches s f t) <;> simp [h]

/-- Characterization of a force-collapse request. -/
theorem applyToggleEffect_forceCollapse (folds : List FoldSpan) (f t : Nat) :
    applyToggleEffect folds ⟨f, t, some true⟩ =
      if folds.any (fun s => rangeTouches s f t) then folds
      else insertSpan folds ⟨f, t⟩ := by
  simp only [applyToggleEffect, Option.getD]
  cases h : folds.any (fun s => rangeTouches s f t) <;> simp [h]

/-- Characterization of a force-expand request: it always just filters out
exact matches. -/
theorem applyToggleEffect_forceExpand (folds : List FoldSpan) (f t : Nat) :
    applyToggleEffect folds ⟨f, t, some false⟩ =
      folds.filter (fun s => !(decide (s.fromPos = f) && decide (s.toPos = t))) := by
  simp [applyToggleEffect]

/-- C7: applying two successive toggle requests with identical bounds and no
intervening edits restores the folded/unfolded state of that span
(`isFolded` being the query `FoldWidget.toDOM` performs). -/
theorem foldStore_toggle_toggle_roundtrip (folds : List FoldSpan) (f t : Nat) :
    isFolded (applyToggleEffect (applyToggleEffect folds ⟨f, t, none⟩) ⟨f, t, none⟩) f t
      = isFolded folds f t := by
  rw [applyToggleEffect_none folds]
  cases h1 : folds.any (fun s => rangeTouches s f t) with
  | false =>
    simp only [h1, Bool.false_eq_true, if_false]
    rw [applyToggleEffect_none, any_insertSpan, h1, Bool.or_false]
    cases hft : rangeTouches (⟨f, t⟩ : FoldSpan) f t with
    | false =>
      simp only [hft, Bool.false_eq_true, if_false]
      rw [isFolded_insertSpan, isFolded_insertSpan, hft]
      simp [isFolded, h1]
    | true =>
      simp only [hft, if_true]
      show isFolded _ f t = _
      simp only [isFolded, h1]
      rw [List.any_eq_false]
      intro s hs
      rw [List.mem_filter] at hs
      obtain ⟨hmem, hkeep⟩ := hs
      rcases mem_insertSpan.mp hmem with rfl | hmem'
      · simp at hkeep
      · have := List.any_eq_false.mp h1 s hmem'
        simp [this]
  | true =>
    simp only [h1, if_true]
    rw [applyToggleEffect_none]
    cases h2 : (folds.filter
        (fun s => !(decide (s.fromPos = f) && decide (s.toPos = t)))).any
        (fun s => rangeTouches s f t) with
    | true =>
      simp only [h2, if_true, List.filter_filter]
      show isFolded _ f t = _
      simp only [isFolded, h1, Bool.and_self]
      exact h2
    | false =>
      simp only [h2, Bool.false_eq_true, if_false]
      rw [isFolded_insertSpan]
      show _ = isFolded folds f t
      simp only [isFolded, h1, Bool.or_eq_true]
      -- some overlapping entry was removed by the exact filter, so it is
      -- exactly the requested span, hence the span is nondegenerate
      obtain ⟨s, hs, hst⟩ := List.any_eq_true.mp h1
      have hrem : s.fromPos = f ∧ s.toPos = t := by
        by_contra hne
        have hkeep : (!(decide (s.fromPos = f) && decide (s.toPos = t))) = true := by
          simp only [Bool.not_eq_true']
          rcases not_and_or.mp hne with h | h <;> simp [h]
        have : s ∈ folds.filter
            (fun s => !(decide (s.fromPos = f) && decide (s.toPos = t))) :=
          List.mem_filter.mpr ⟨hs, hkeep⟩
        have := List.any_eq_false.mp h2 s this
        simp [hst] at this
      have hs' : s = (⟨f, t⟩ : FoldSpan) := by
        cases s; simp_all
      rw [hs'] at hst
      simp [hst]

/-- C8: a force-collapse on a span that already has a fold entry leaves the
store unchanged, and a force-expand on a span with no entry leaves the store
unchanged. -/
theorem foldStore_force_idempotent (folds : List FoldSpan) (f t : Nat) :
    (f ≤ t → (⟨f, t⟩ : FoldSpan) ∈ folds →
        applyToggleEffect folds ⟨f, t, some true⟩ = folds) ∧
    ((∀ s ∈ folds, s ≠ (⟨f, t⟩ : FoldSpan)) →
        applyToggleEffect folds ⟨f, t, some false⟩ = folds) := by
  constructor
  · intro hspan hmem
    rw [applyToggleEffect_forceCollapse]
    have : folds.any (fun s => rangeTouches s f t) = true :=
      List.any_eq_true.mpr ⟨⟨f, t⟩, hmem, by simp [rangeTouches, hspan]⟩
    simp [this]
  · intro hnone
    rw [applyToggleEffect_forceExpand]
    apply List.filter_eq_self.mpr
    intro s hs
    have hne := hnone s hs
    simp only [Bool.not_eq_eq_eq_not, Bool.not_true, Bool.and_eq_false_iff,
      decide_eq_false_iff_not]
    by_contra hc
    push_neg at hc
    obtain ⟨hf, ht⟩ := hc
    exact hne (by cases s; simp_all)

/-- Witness for `foldStore_force_idempotent` at a concrete store. -/
theorem foldStore_force_idempotent_witness :
    applyToggleEffect [⟨0, 10⟩] ⟨0, 10, some true⟩ = [⟨0, 10⟩] ∧
    applyToggleEffect [⟨0, 10⟩] ⟨3, 7, some false⟩ = [⟨0, 10⟩] :=
  ⟨(foldStore_force_idempotent [⟨0, 10⟩] 0 10).1 (by decide) (by decide),
   (foldStore_force_idempotent [⟨0, 10⟩] 3 7).2 (by decide)⟩

/-- C2 counterexample: a request whose bounds overlap an existing entry with
*different* bounds does NOT insert a new entry — the store is left unchanged,
contradicting "an entry (from, to) → folded is inserted (reduction case 3)
... even when the request's span overlaps an existing entry with different
bounds".  Store `[(0,10)]`, request `(0,12)`, as a toggle and as a
force-collapse. -/
theorem foldStore_overlap_request_counterexample :
    applyToggleEffect [⟨0, 10⟩] ⟨0, 12, none⟩ = [⟨0, 10⟩] ∧
    applyToggleEffect [⟨0, 10⟩] ⟨0, 12, some true⟩ = [⟨0, 10⟩] ∧
    (⟨0, 12⟩ : FoldSpan) ∉ applyToggleEffect [⟨0, 10⟩] ⟨0, 12, none⟩ := by
  refine ⟨rfl, rfl, ?_⟩
  decide

/-- C2 amended: a toggle or force-collapse request whose bounds do not
overlap or touch *any* current entry (in particular, do not exactly match
one) is treated as "no existing fold" and an entry `(from, to) → folded` is
inserted; when the bounds overlap an existing entry with different bounds
the store is left unchanged (see `foldStore_nonexact_request_noop`). -/
theorem foldStore_insert_when_no_overlap (folds : List FoldSpan) (f t : Nat)
    (h : ∀ s ∈ folds, rangeTouches s f t = false) :
    applyToggleEffect folds ⟨f, t, none⟩ = insertSpan folds ⟨f, t⟩ ∧
    applyToggleEffect folds ⟨f, t, some true⟩ = insertSpan folds ⟨f, t⟩ := by
  have hany : folds.any (fun s => rangeTouches s f t) = false :=
    List.any_eq_false.mpr (fun s hs => by simp [h s hs])
  rw [applyToggleEffect_none, applyToggleEffect_forceCollapse]
  simp [hany]

/-- Witness for `foldStore_insert_when_no_overlap` at a concrete store. -/
theorem foldStore_insert_when_no_overlap_witness :
    applyToggleEffect [⟨0, 10⟩] ⟨12, 20, none⟩ = insertSpan [⟨0, 10⟩] ⟨12, 20⟩ ∧
    applyToggleEffect [⟨0, 10⟩] ⟨12, 20, some true⟩ = insertSpan [⟨0, 10⟩] ⟨12, 20⟩ :=
  foldStore_insert_when_no_overlap [⟨0, 10⟩] 12 20 (by decide)

/-- Two fold spans overlap or touch (symmetric version of `rangeTouches`). -/
def spansOverlap (a b : FoldSpan) : Prop :=
  a.fromPos ≤ b.toPos ∧ b.fromPos ≤ a.toPos

/-- Inserting a span that overlaps nothing in a pairwise-related list keeps
the list pairwise related. -/
theorem pairwise_insertSpan {R : FoldSpan → FoldSpan → Prop} {l : List FoldSpan}
    {s : FoldSpan} (hl : List.Pairwise R l) (hs : ∀ x ∈ l, R s x ∧ R x s) :
    List.Pairwise R (insertSpan l s) := by
  induction l with
  | nil => simp [insertSpan]
  | cons x xs ih =>
    obtain ⟨hx, hxs⟩ := List.pairwise_cons.mp hl
    simp only [insertSpan]
    split
    · exact List.pairwise_cons.mpr ⟨fun y hy => (hs y hy).1, hl⟩
    · refine List.pairwise_cons.mpr
        ⟨?_, ih hxs (fun z hz => hs z (List.mem_cons_of_mem _ hz))⟩
      intro y hy
      rcases mem_insertSpan.mp hy with rfl | hy'
      · exact (hs x (List.mem_cons_self _ _)).2
      · exact hx y hy'

/-- C10: a toggle or force-collapse request whose bounds overlap an existing
entry but exactly match no entry leaves the store completely unchanged
(nothing is removed, nothing inserted); moreover a single reduction step
never creates two overlapping entries (insertion only happens when nothing
overlaps the request). -/
theorem foldStore_nonexact_request_noop (folds : List FoldSpan) (f t : Nat)
    (hover : ∃ s ∈ folds, rangeTouches s f t = true)
    (hnone : ∀ s ∈ folds, s ≠ (⟨f, t⟩ : FoldSpan)) :
    applyToggleEffect folds ⟨f, t, none⟩ = folds ∧
    applyToggleEffect folds ⟨f, t, some true⟩ = folds ∧
    (∀ (folds' : List FoldSpan) (e : ToggleFoldEffect),
      List.Pairwise (fun a b => ¬ spansOverlap a b) folds' →
      List.Pairwise (fun a b => ¬ spansOverlap a b) (applyToggleEffect folds' e)) := by
  have hany : folds.any (fun s => rangeTouches s f t) = true :=
    List.any_eq_true.mpr hover
  have hfilter : folds.filter
      (fun s => !(decide (s.fromPos = f) && decide (s.toPos = t))) = folds := by
    apply List.filter_eq_self.mpr
    intro s hs
    have hne := hnone s hs
    simp only [Bool.not_eq_eq_eq_not, Bool.not_true, Bool.and_eq_false_iff,
      decide_eq_false_iff_not]
    by_contra hc
    push_neg at hc
    exact hne (by cases s; simp_all)
  refine ⟨?_, ?_, ?_⟩
  · rw [applyToggleEffect_none, if_pos hany, hfilter]
  · rw [applyToggleEffect_forceCollapse, if_pos hany]
  · intro folds' e hp
    simp only [applyToggleEffect]
    split
    · exact hp.sublist (List.filter_sublist folds')
    · next hcond =>
      split
      · next hins =>
        have hnov : ∀ s ∈ folds',
            rangeTouches s e.fromPos e.toPos = false := by
          intro s hs
          have := List.any_eq_false.mp (by simpa using hins) s hs
          simpa using this
        apply pairwise_insertSpan hp
        intro x hx
        have hfx := hnov x hx
        simp only [rangeTouches, Bool.and_eq_false_iff,
          decide_eq_false_iff_not] at hfx
        constructor
        · intro hov
          obtain ⟨h1, h2⟩ := hov
          rcases hfx with h | h <;> simp_all [spansOverlap]
        · intro hov
          obtain ⟨h1, h2⟩ := hov
          rcases hfx with h | h <;> simp_all [spansOverlap]
      · exact hp

/-- Witness for `foldStore_nonexact_request_noop` at a concrete store. -/
theorem foldStore_nonexact_request_noop_witness :
    applyToggleEffect [⟨0, 10⟩] ⟨5, 15, none⟩ = [⟨0, 10⟩] ∧
    applyToggleEffect [⟨0, 10⟩] ⟨5, 15, some true⟩ = [⟨0, 10⟩] :=
  ⟨(foldStore_nonexact_request_noop [⟨0, 10⟩] 5 15
      ⟨⟨0, 10⟩, by decide, by decide⟩ (by decide)).1,
   (foldStore_nonexact_request_noop [⟨0, 10⟩] 5 15
      ⟨⟨0, 10⟩, by decide, by decide⟩ (by decide)).2.1⟩

/-- A single document change of a transaction, as presented by
`tr.changes.iterChanges((fromA, toA, fromB, toB, inserted) => ...)`:
the range `[fromA, toA)` of the old document is replaced by
`insertedLength` characters.  We model single-change transactions, which is
what a keystroke produces. -/
structure ChangeSpec where
  fromA : Nat
  toA : Nat
  insertedLength : Nat
deriving DecidableEq, Repr

/-- Position mapping of a fold-decoration boundary through a change, as
performed by `folds.map(tr.changes)` for the replace decorations created in
`createFoldField` (`inclusiveStart: true`, `inclusiveEnd: false`): a
position at or before the replaced range keeps its value (text inserted
exactly at a boundary stays outside the tracked side), a position at or
after the end of the replaced range is shifted by the length difference,
and a position strictly inside the replaced range collapses to its start. -/
def mapPosThrough (c : ChangeSpec) (p : Nat) : Nat :=
  if p ≤ c.fromA then p
  else if c.toA ≤ p then c.fromA + (p - c.toA) + c.insertedLength
  else c.fromA

/-- `folds.map(tr.changes)`: every entry's boundaries are remapped; entries
whose remapped span is degenerate (zero-width or inverted) are dropped from
the range set. -/
def mapFolds (c : ChangeSpec) (folds : List FoldSpan) : List FoldSpan :=
  (folds.map (fun s => (⟨mapPosThrough c s.fromPos, mapPosThrough c s.toPos⟩ : FoldSpan))).filter
    (fun s => decide (s.fromPos < s.toPos))

/-- The `autoExpandFilter` transaction filter (`src/editView.ts:308-335`):
for each change, every fold of the *start state* whose span the change
touches (`fromA <= foldTo && toA >= foldFrom`) contributes a force-expand
effect carrying that fold's pre-edit coordinates:

```
tr.changes.iterChanges((fromA, toA, fromB, toB, inserted) => {
  folds.between(0, tr.startState.doc.length, (foldFrom, foldTo) => {
    if (fromA <= foldTo && toA >= foldFrom) {
      unfoldEffects.push(toggleFoldEffect.of({from: foldFrom, to: foldTo, defaultState: false}))
    }
  })
})
```
-/
def autoExpandEffects (folds : List FoldSpan) (c : ChangeSpec) : List ToggleFoldEffect :=
  (folds.filter (fun s => decide (c.fromA ≤ s.toPos) && decide (s.fromPos ≤ c.toA))).map
    (fun s => ⟨s.fromPos, s.toPos, some false⟩)

/-- Committing a single-change transaction with the synthesized auto-expand
effects attached (`return [tr, { effects: unfoldEffects }]`): the fold field
update first remaps its entries through the change (`folds.map(tr.changes)`)
and then applies each effect in order. -/
def commitTransaction (folds : List FoldSpan) (c : ChangeSpec) : List FoldSpan :=
  (autoExpandEffects folds c).foldl applyToggleEffect (mapFolds c folds)

/-- C1 (refutation / bug evidence): a one-character insertion strictly
inside the folded span `(0, 20)` does synthesize the force-expand effect for
`(0, 20)`, yet after the commit the fold entry — remapped to `(0, 21)` — is
still present and the span is still folded: the effect's exact-match removal
compares the stale pre-edit coordinates against the remapped entry and
deletes nothing.  This contradicts the edit-safety invariant, which the
guard's own comments state as its purpose. -/
theorem autoExpand_insertion_keeps_span_folded :
    autoExpandEffects [⟨0, 20⟩] ⟨5, 5, 1⟩ = [⟨0, 20, some false⟩] ∧
    commitTransaction [⟨0, 20⟩] ⟨5, 5, 1⟩ = [⟨0, 21⟩] ∧
    isFolded (commitTransaction [⟨0, 20⟩] ⟨5, 5, 1⟩) 0 21 = true := by
  refine ⟨rfl, rfl, rfl⟩

/-- A code block span as produced by `findCodeBlockPositions`
(`interface CodeBlockPosition { startPos: number; endPos: number }`). -/
structure CodeBlockPosition where
  startPos : Nat
  endPos : Nat
deriving DecidableEq, Repr

/-- `line.text.trim().startsWith('```')` — the fence test used by the
region locator, the auto-toggle command and the preview builder.
JavaScript's `trim()` drops leading and trailing whitespace and
`startsWith` then inspects the first three characters, so the test holds
exactly when the first three characters after the leading whitespace are
backticks (trailing trimming cannot affect them); we state it that way,
character-wise, so the kernel can evaluate it. -/
def isFenceLine (l : String) : Bool :=
  (l.data.dropWhile Char.isWhitespace).take 3 == ['\x60', '\x60', '\x60']

/-- Character offset of the start of line `i` in a document given as a list
of lines, counting one newline between consecutive lines (CodeMirror
`doc.line(i).from`). -/
def lineStartOffset : List String → Nat → Nat
  | _, 0 => 0
  | [], _ + 1 => 0
  | l :: ls, i + 1 => l.length + 1 + lineStartOffset ls i

/-- Character offset of the end of line `i` (CodeMirror `doc.line(i).to`,
excluding the newline). -/
def lineEndOffset (lines : List String) (i : Nat) : Nat :=
  lineStartOffset lines i + (lines.getD i "").length

/-- `doc.line(doc.lines).to`: the end of the document. -/
def docLength (lines : List String) : Nat :=
  lineEndOffset lines (lines.length - 1)

/-- First fence line at index `≥ k`, scanning the given tail of the
document whose head is line `k`. -/
def findFenceFromAux : List String → Nat → Option Nat
  | [], _ => none
  | l :: ls, k => if isFenceLine l then some k else findFenceFromAux ls (k + 1)

/-- First line with index `≥ k` whose trimmed text begins with a
triple-backtick fence — the closing-fence scan
`for (i = line.number; i <= doc.lines; i++) ... i !== line.number &&
currentLine.text.trim().startsWith('```')` is `findFenceFrom lines (b+1)`. -/
def findFenceFrom (lines : List String) (k : Nat) : Option Nat :=
  findFenceFromAux (lines.drop k) k

/-- Modelled syntax oracle: the lines carrying a `HyperMD-codeblock-begin`
mark.  The CodeMirror markdown parser opens a fenced code block at a fence
line that is not already inside an open block, and the next fence line
closes it; so the begin lines are the fence lines reached with the
"inside a block" flag off, scanning top to bottom. -/
def beginScanAux : List String → Nat → Bool → List Nat
  | [], _, _ => []
  | l :: ls, k, inCode =>
    if isFenceLine l then
      if inCode then beginScanAux ls (k + 1) false
      else k :: beginScanAux ls (k + 1) true
    else beginScanAux ls (k + 1) inCode

/-- Indices of fence-opening lines from line `k` on. -/
def beginScan (lines : List String) (k : Nat) (inCode : Bool) : List Nat :=
  beginScanAux (lines.drop k) k inCode

/-- The span pushed by `findCodeBlockPositions` for the begin line `b`:
from the begin line's start to the matching close line's end, or to the end
of the document when no close line exists. -/
def mkCodeBlockSpan (lines : List String) (b : Nat) : CodeBlockPosition :=
  match findFenceFrom lines (b + 1) with
  | some c => ⟨lineStartOffset lines b, lineEndOffset lines c⟩
  | none => ⟨lineStartOffset lines b, docLength lines⟩

/-- `findCodeBlockPositions` (`src/editView.ts:230-270`): for every
fence-opening line reported by the syntax layer, scan forward for the first
later fence line and emit the span, extending to the end of the document
when none exists. -/
def findCodeBlockPositions (lines : List String) : List CodeBlockPosition :=
  (beginScan lines 0 false).map (mkCodeBlockSpan lines)

theorem lineStartOffset_mono (lines : List String) :
    ∀ {i j : Nat}, i ≤ j → lineStartOffset lines i ≤ lineStartOffset lines j := by
  induction lines with
  | nil =>
    intro i j _
    cases i <;> cases j <;> simp [lineStartOffset]
  | cons l ls ih =>
    intro i j h
    cases i with
    | zero => cases j <;> simp [lineStartOffset]
    | succ i' =>
      cases j with
      | zero => omega
      | succ j' =>
        simp only [lineStartOffset]
        have := ih (show i' ≤ j' by omega)
        omega

theorem lineEndOffset_lt_lineStartOffset_succ (lines : List String) :
    ∀ {c : Nat}, c < lines.length →
      lineEndOffset lines c < lineStartOffset lines (c + 1) := by
  induction lines with
  | nil => intro c h; simp at h
  | cons l ls ih =>
    intro c h
    cases c with
    | zero =>
      simp [lineEndOffset, lineStartOffset]
    | succ c' =>
      simp only [lineEndOffset, lineStartOffset, List.getD_cons_succ] at *
      have := ih (show c' < ls.length by simpa using h)
      simp only [lineEndOffset] at this
      omega

theorem lineStartOffset_le_lineEndOffset (lines : List String) (i : Nat) :
    lineStartOffset lines i ≤ lineEndOffset lines i :=
  Nat.le_add_right _ _

theorem findFenceFromAux_some {ls : List String} {k c : Nat}
    (h : findFenceFromAux ls k = some c) : k ≤ c ∧ c - k < ls.length := by
  induction ls generalizing k with
  | nil => simp [findFenceFromAux] at h
  | cons l ls ih =>
    simp only [findFenceFromAux] at h
    split at h
    · cases h; simp only [List.length_cons]; omega
    · have := ih h
      simp only [List.length_cons]
      omega

theorem findFenceFrom_some {lines : List String} {k c : Nat}
    (h : findFenceFrom lines k = some c) : k ≤ c ∧ c < lines.length := by
  have h' := findFenceFromAux_some h
  have hd : (lines.drop k).length = lines.length - k := List.length_drop _ _
  omega

theorem beginScanAux_mem {ls : List String} {k x : Nat} {ic : Bool}
    (h : x ∈ beginScanAux ls k ic) : k ≤ x ∧ x - k < ls.length := by
  induction ls generalizing k ic with
  | nil => simp [beginScanAux] at h
  | cons l ls ih =>
    simp only [beginScanAux] at h
    split at h
    · split at h
      · have := ih h; simp only [List.length_cons]; omega
      · rcases List.mem_cons.mp h with rfl | h'
        · simp
        · have := ih h'; simp only [List.length_cons]; omega
    · have := ih h; simp only [List.length_cons]; omega

theorem beginScan_mem {lines : List String} {k x : Nat} {ic : Bool}
    (h : x ∈ beginScan lines k ic) : k ≤ x ∧ x < lines.length := by
  have h' := beginScanAux_mem h
  have hd : (lines.drop k).length = lines.length - k := List.length_drop _ _
  omega

theorem beginScanAux_true_eq (ls : List String) :
    ∀ k, beginScanAux ls k true =
      match findFenceFromAux ls k with
      | none => []
      | some c => beginScanAux (ls.drop (c + 1 - k)) (c + 1) false := by
  induction ls with
  | nil => intro k; simp [beginScanAux, findFenceFromAux]
  | cons l ls ih =>
    intro k
    by_cases hf : isFenceLine l
    · simp only [beginScanAux, findFenceFromAux, hf, if_true]
      have he : k + 1 - k = 1 := by omega
      rw [he, List.drop_succ_cons, List.drop_zero]
    · simp only [beginScanAux, findFenceFromAux, hf, Bool.false_eq_true, if_false]
      rw [ih (k + 1)]
      cases hc : findFenceFromAux ls (k + 1) with
      | none => rfl
      | some c =>
        have hk := (findFenceFromAux_some hc).1
        have he1 : c + 1 - (k + 1) = c - k := by omega
        have he2 : c + 1 - k = (c - k) + 1 := by omega
        show beginScanAux (ls.drop (c + 1 - (k + 1))) (c + 1) false
          = beginScanAux ((l :: ls).drop (c + 1 - k)) (c + 1) false
        rw [he1, he2, List.drop_succ_cons]

theorem beginScanAux_false_eq (ls : List String) :
    ∀ k, beginScanAux ls k false =
      match findFenceFromAux ls k with
      | none => []
      | some b => b :: beginScanAux (ls.drop (b + 1 - k)) (b + 1) true := by
  induction ls with
  | nil => intro k; simp [beginScanAux, findFenceFromAux]
  | cons l ls ih =>
    intro k
    by_cases hf : isFenceLine l
    · simp only [beginScanAux, findFenceFromAux, hf, if_true, Bool.false_eq_true, if_false]
      have he : k + 1 - k = 1 := by omega
      rw [he, List.drop_succ_cons, List.drop_zero]
    · simp only [beginScanAux, findFenceFromAux, hf, Bool.false_eq_true, if_false]
      rw [ih (k + 1)]
      cases hc : findFenceFromAux ls (k + 1) with
      | none => rfl
      | some b =>
        have hk := (findFenceFromAux_some hc).1
        have he1 : b + 1 - (k + 1) = b - k := by omega
        have he2 : b + 1 - k = (b - k) + 1 := by omega
        show b :: beginScanAux (ls.drop (b + 1 - (k + 1))) (b + 1) true
          = b :: beginScanAux ((l :: ls).drop (b + 1 - k)) (b + 1) true
        rw [he1, he2, List.drop_succ_cons]

theorem beginScan_true_none {lines : List String} {k : Nat}
    (h : findFenceFrom lines k = none) : beginScan lines k true = [] := by
  unfold beginScan
  rw [beginScanAux_true_eq]
  unfold findFenceFrom at h
  rw [h]

theorem beginScan_true_some {lines : List String} {k c : Nat}
    (h : findFenceFrom lines k = some c) :
    beginScan lines k true = beginScan lines (c + 1) false := by
  unfold beginScan
  rw [beginScanAux_true_eq]
  unfold findFenceFrom at h
  rw [h]
  have hk := (findFenceFromAux_some h).1
  show beginScanAux ((lines.drop k).drop (c + 1 - k)) (c + 1) false
    = beginScanAux (lines.drop (c + 1)) (c + 1) false
  rw [List.drop_drop]
  have he : k + (c + 1 - k) = c + 1 := by omega
  rw [he]

theorem beginScan_false_none {lines : List String} {k : Nat}
    (h : findFenceFrom lines k = none) : beginScan lines k false = [] := by
  unfold beginScan
  rw [beginScanAux_false_eq]
  unfold findFenceFrom at h
  rw [h]

theorem beginScan_false_some {lines : List String} {k b : Nat}
    (h : findFenceFrom lines k = some b) :
    beginScan lines k false = b :: beginScan lines (b + 1) true := by
  unfold beginScan
  rw [beginScanAux_false_eq]
  unfold findFenceFrom at h
  rw [h]
  have hk := (findFenceFromAux_some h).1
  show b :: beginScanAux ((lines.drop k).drop (b + 1 - k)) (b + 1) true
    = b :: beginScan lines (b + 1) true
  unfold beginScan
  rw [List.drop_drop]
  have he : k + (b + 1 - k) = b + 1 := by omega
  rw [he]

theorem mkCodeBlockSpan_startPos (lines : List String) (b : Nat) :
    (mkCodeBlockSpan lines b).startPos = lineStartOffset lines b := by
  unfold mkCodeBlockSpan
  cases h : findFenceFrom lines (b + 1) <;> rfl

theorem mkCodeBlockSpan_start_le_end {lines : List String} {b : Nat}
    (hb : b < lines.length) :
    (mkCodeBlockSpan lines b).startPos ≤ (mkCodeBlockSpan lines b).endPos := by
  unfold mkCodeBlockSpan
  cases hg : findFenceFrom lines (b + 1) with
  | none =>
    show lineStartOffset lines b ≤ docLength lines
    unfold docLength
    calc lineStartOffset lines b
        ≤ lineStartOffset lines (lines.length - 1) :=
          lineStartOffset_mono lines (by omega)
      _ ≤ lineEndOffset lines (lines.length - 1) :=
          lineStartOffset_le_lineEndOffset _ _
  | some c =>
    obtain ⟨hbc, hclen⟩ := findFenceFrom_some hg
    show lineStartOffset lines b ≤ lineEndOffset lines c
    calc lineStartOffset lines b
        ≤ lineStartOffset lines c := lineStartOffset_mono lines (by omega)
      _ ≤ lineEndOffset lines c := lineStartOffset_le_lineEndOffset _ _

theorem findCodeBlockPositions_pairwise_aux (lines : List String) :
    ∀ (n k : Nat), lines.length - k ≤ n →
      List.Pairwise (fun p q => p.endPos < q.startPos)
        ((beginScan lines k false).map (mkCodeBlockSpan lines)) := by
  intro n
  induction n with
  | zero =>
    intro k hk
    have hnil : lines.drop k = [] := List.drop_eq_nil_of_le (by omega)
    have hempty : beginScan lines k false = [] := by
      unfold beginScan; rw [hnil]; rfl
    rw [hempty]; simp
  | succ n ih =>
    intro k hk
    cases hf : findFenceFrom lines k with
    | none => rw [beginScan_false_none hf]; simp
    | some b =>
      rw [beginScan_false_some hf]
      obtain ⟨hkb, hblen⟩ := findFenceFrom_some hf
      cases hg : findFenceFrom lines (b + 1) with
      | none => rw [beginScan_true_none hg]; simp
      | some c =>
        rw [beginScan_true_some hg]
        obtain ⟨hbc, hclen⟩ := findFenceFrom_some hg
        rw [List.map_cons]
        refine List.pairwise_cons.mpr ⟨?_, ih (c + 1) (by omega)⟩
        intro q hq
        rw [List.mem_map] at hq
        obtain ⟨b2, hb2, rfl⟩ := hq
        obtain ⟨hb2lb, _⟩ := beginScan_mem hb2
        have hhead : mkCodeBlockSpan lines b
            = ⟨lineStartOffset lines b, lineEndOffset lines c⟩ := by
          unfold mkCodeBlockSpan; rw [hg]
        rw [hhead, mkCodeBlockSpan_startPos]
        show lineEndOffset lines c < lineStartOffset lines b2
        calc lineEndOffset lines c
            < lineStartOffset lines (c + 1) :=
              lineEndOffset_lt_lineStartOffset_succ lines hclen
          _ ≤ lineStartOffset lines b2 := lineStartOffset_mono lines hb2lb

/-- C9: the Region Locator returns one span per fence-opening line, in
document order; the spans are pairwise disjoint (each ends before the next
begins) and sorted by start offset ascending; a region with no closing
fence line after its opening line extends to the end of the document. -/
theorem region_locator_spans_disjoint_sorted (lines : List String) :
    List.Pairwise (fun p q => p.endPos < q.startPos) (findCodeBlockPositions lines) ∧
    List.Pairwise (fun p q => p.startPos < q.startPos) (findCodeBlockPositions lines) ∧
    (findCodeBlockPositions lines).length = (beginScan lines 0 false).length ∧
    (∀ b ∈ beginScan lines 0 false, findFenceFrom lines (b + 1) = none →
      mkCodeBlockSpan lines b = ⟨lineStartOffset lines b, docLength lines⟩) := by
  have hpw : List.Pairwise (fun p q => p.endPos < q.startPos)
      (findCodeBlockPositions lines) :=
    findCodeBlockPositions_pairwise_aux lines lines.length 0 (by omega)
  refine ⟨hpw, ?_, List.length_map _ _, ?_⟩
  · refine List.Pairwise.imp_of_mem ?_ hpw
    intro p q hp hq hlt
    unfold findCodeBlockPositions at hp
    rw [List.mem_map] at hp
    obtain ⟨b, hb, rfl⟩ := hp
    have hble := mkCodeBlockSpan_start_le_end (beginScan_mem hb).2
    omega
  · intro b _ hnone
    unfold mkCodeBlockSpan
    rw [hnone]

/-- Witness for `region_locator_spans_disjoint_sorted`: a document with a
single unterminated fence; its span extends to the end of the document. -/
theorem region_locator_spans_disjoint_sorted_witness :
    mkCodeBlockSpan ["```", "x"] 0 = ⟨0, docLength ["```", "x"]⟩ :=
  (region_locator_spans_disjoint_sorted ["```", "x"]).2.2.2 0 (by decide) (by decide)

/-- `doc.lineAt(pos)`: index of the line containing a character position
(a position at a line's end, before the newline, belongs to that line). -/
def lineIndexAt : List String → Nat → Nat
  | [], _ => 0
  | [_], _ => 0
  | l :: ls, p => if p ≤ l.length then 0 else 1 + lineIndexAt ls (p - (l.length + 1))

/-- The backward search of `toggleCodeBlockAtCursor`
(`for (let i = cursorLine.number - 1; i >= 1; i--)`): starting just above
the cursor's line, find a fence line, forward-scan for the next fence line
below it, accept the pair when the cursor lies between the fence line's
start and the later fence line's end, otherwise reset and keep searching
upward.  The argument is one more than the line index to inspect next
(`0` = nothing left above). -/
def backwardScan (lines : List String) (cursorPos : Nat) : Nat → Option (Nat × Nat)
  | 0 => none
  | i + 1 =>
    if isFenceLine (lines.getD i "") then
      match findFenceFrom lines (i + 1) with
      | some j =>
        if lineStartOffset lines i ≤ cursorPos ∧ cursorPos ≤ lineEndOffset lines j then
          some (lineStartOffset lines i, lineEndOffset lines j)
        else backwardScan lines cursorPos i
      | none => backwardScan lines cursorPos i
    else backwardScan lines cursorPos i

/-- `CollapsibleCodeBlockPlugin.toggleCodeBlockAtCursor` (`main.ts:70-143`),
reduced to the span it dispatches `toggleFoldEffect` for (`none` = no
dispatch): if the cursor's line is itself a fence line, forward-scan for a
closing fence; otherwise search backward for a fence line whose
forward-matched fence pair encloses the cursor. -/
def toggleCodeBlockAtCursor (lines : List String) (cursorPos : Nat) :
    Option (Nat × Nat) :=
  let cl := lineIndexAt lines cursorPos
  if isFenceLine (lines.getD cl "") then
    match findFenceFrom lines (cl + 1) with
    | some e => some (lineStartOffset lines cl, lineEndOffset lines e)
    | none => none
  else backwardScan lines cursorPos cl

/-- C4 (refutation / bug evidence): in the document

```
```a        (lines 0..2: first block, offsets 0..10)
x
```
y           (line 3, offsets 11..12 — outside every region)
```b        (lines 4..6: second block, offsets 13..23)
z
```
```

with the caret on line `y` (offset 11), outside both recognized regions
`(0,10)` and `(13,23)`, the command still dispatches a toggle: the backward
search lands on the *closing* fence of the first block (line 2) and pairs
it with the *opening* fence of the second block (line 4), producing the
bogus span `(7, 17)`.  The claim says the command issues no toggle request
when the caret is not inside a recognized region. -/
theorem toggleCommand_outside_region_dispatches :
    toggleCodeBlockAtCursor ["```a", "x", "```", "y", "```b", "z", "```"] 11
      = some (7, 17) ∧
    (∀ p ∈ findCodeBlockPositions ["```a", "x", "```", "y", "```b", "z", "```"],
      ¬(p.startPos ≤ 11 ∧ 11 ≤ p.endPos)) := by
  refine ⟨rfl, ?_⟩
  decide

/-- JavaScript `value.toLowerCase()`, character-wise so the kernel can
evaluate it. -/
def toLowerString (v : String) : String :=
  String.mk (v.data.map Char.toLower)

/-- `FoldWidget.getFrontmatterCodeBlockState` (`src/editView.ts:18-25`):
the `code-blocks` front-matter field (`none` = absent; the source's
falsy guard also treats the empty string as absent), lower-cased and
compared against the two recognized directives:

```
const value = cache.frontmatter['code-blocks'].toLowerCase();
return value === 'collapsed' ? true : value === 'expanded' ? false : null;
```
-/
def getFrontmatterCodeBlockState (fm : Option String) : Option Bool :=
  match fm with
  | none => none
  | some raw =>
    if raw = "" then none
    else
      let value := toLowerString raw
      if value = "collapsed" then some true
      else if value = "expanded" then some false
      else none

/-- `FoldWidget.initializeCodeBlock`'s resolution
(`const shouldCollapse = frontmatterState !== null ? frontmatterState :
this.settings.defaultCollapsed`). -/
def resolveDefaultFoldState (fm : Option String) (defaultCollapsed : Bool) : Bool :=
  (getFrontmatterCodeBlockState fm).getD defaultCollapsed

/-- C5: the Default-State Resolver returns folded when the `code-blocks`
front-matter value equals `collapsed` case-insensitively, unfolded when it
equals `expanded` case-insensitively, and otherwise (any other value, or no
front-matter) the global `defaultCollapsed` flag. -/
theorem frontmatter_default_resolution (v : String) (d : Bool) :
    (toLowerString v = "collapsed" → resolveDefaultFoldState (some v) d = true) ∧
    (toLowerString v = "expanded" → resolveDefaultFoldState (some v) d = false) ∧
    (toLowerString v ≠ "collapsed" → toLowerString v ≠ "expanded" →
      resolveDefaultFoldState (some v) d = d) ∧
    resolveDefaultFoldState none d = d := by
  refine ⟨?_, ?_, ?_, rfl⟩
  · intro h
    unfold resolveDefaultFoldState getFrontmatterCodeBlockState
    by_cases hv : v = ""
    · subst hv
      exact absurd h (by decide)
    · simp [hv, h]
  · intro h
    unfold resolveDefaultFoldState getFrontmatterCodeBlockState
    by_cases hv : v = ""
    · subst hv
      exact absurd h (by decide)
    · have hne : toLowerString v ≠ "collapsed" := by rw [h]; decide
      simp [hv, h, hne]
  · intro h1 h2
    unfold resolveDefaultFoldState getFrontmatterCodeBlockState
    by_cases hv : v = ""
    · simp [hv]
    · simp [hv, h1, h2]

/-- Witness for `frontmatter_default_resolution`: case-insensitive
`Collapsed` forces folded over a `false` default, `EXPANDED` forces
unfolded over a `true` default, an unrecognized value falls back to the
default. -/
theorem frontmatter_default_resolution_witness :
    resolveDefaultFoldState (some "Collapsed") false = true ∧
    resolveDefaultFoldState (some "EXPANDED") true = false ∧
    resolveDefaultFoldState (some "nonsense") true = true :=
  ⟨(frontmatter_default_resolution "Collapsed" false).1 (by decide),
   (frontmatter_default_resolution "EXPANDED" true).2.1 (by decide),
   (frontmatter_default_resolution "nonsense" true).2.2.1 (by decide) (by decide)⟩

/-- JavaScript `content.split('\n')`, character-wise so the kernel can
evaluate it: splits into the (always non-empty) list of newline-separated
segments. -/
def splitNlChars : List Char → List (List Char)
  | [] => [[]]
  | c :: cs =>
    if c = '\n' then [] :: splitNlChars cs
    else
      match splitNlChars cs with
      | g :: gs => (c :: g) :: gs
      | [] => [[c]]

def splitNewline (s : String) : List String :=
  (splitNlChars s.data).map String.mk

/-- The delimiter-stripping of the folded widget's preview
(`src/editView.ts:154-160`): skip the first line (the one with the opening
fence) and drop the last line when its trimmed text starts with a fence:

```
let codeLines = allLines.slice(1);
if (codeLines.length > 0 && codeLines[codeLines.length - 1].trim().startsWith('```'))
  codeLines = codeLines.slice(0, -1);
```
-/
def strippedCodeLines (content : String) : List String :=
  let codeLines := (splitNewline content).drop 1
  match codeLines.getLast? with
  | some last => if isFenceLine last then codeLines.dropLast else codeLines
  | none => codeLines

/-- `codeLines.slice(0, settings.collapsedLines)` — the preview's visible
lines. -/
def previewLines (content : String) (collapsedLines : Nat) : List String :=
  (strippedCodeLines content).take collapsedLines

/-- `...slice(0, settings.collapsedLines).join('\n')` — the preview text
set on the folded widget's code element. -/
def previewText (content : String) (collapsedLines : Nat) : String :=
  String.intercalate "\n" (previewLines content collapsedLines)

/-- C6: the folded replacement's preview shows at most `collapsedLines`
lines, the shown lines are an initial segment of the region's raw lines
with the opening fence line and the closing fence line excluded, and a
`collapsedLines` of zero yields an empty preview text. -/
theorem collapsed_preview_line_budget (content : String) (n : Nat) :
    (previewLines content n).length ≤ n ∧
    previewLines content n <+: strippedCodeLines content ∧
    (∀ l ∈ previewLines content n, l ∈ (splitNewline content).drop 1) ∧
    previewText content 0 = "" := by
  refine ⟨?_, List.take_prefix _ _, ?_, ?_⟩
  · exact List.length_take_le n (strippedCodeLines content)
  · intro l hl
    simp only [previewLines] at hl
    have h1 := List.mem_of_mem_take hl
    revert h1
    unfold strippedCodeLines
    dsimp only
    cases hcl : ((splitNewline content).drop 1).getLast? with
    | none => intro h1; exact h1
    | some last =>
      intro h1
      dsimp only at h1
      by_cases hf : isFenceLine last = true
      · rw [if_pos hf] at h1
        exact (List.dropLast_sublist _).subset h1
      · rw [if_neg hf] at h1
        exact h1
  · simp [previewText, previewLines, String.intercalate]

/-- Witness for `collapsed_preview_line_budget` on a four-line region. -/
theorem collapsed_preview_line_budget_witness :
    (previewLines "```js\nA\nB\n```" 1).length ≤ 1 ∧
    previewText "```js\nA\nB\n```" 0 = "" :=
  ⟨(collapsed_preview_line_budget "```js\nA\nB\n```" 1).1,
   (collapsed_preview_line_budget "```js\nA\nB\n```" 0).2.2.2⟩

/-- `CollapsibleCodeBlockSettings` (`src/types.ts`). -/
structure CollapsibleCodeBlockSettings where
  defaultCollapsed : Bool
  collapseIcon : String
  expandIcon : String
  enableHorizontalScroll : Bool
  collapsedLines : Nat
  buttonAlignment : String
  transparentButton : Bool
deriving Repr

/-- `FoldWidget.getBlockId`:
`` `${file?.path || ''}-${this.startPos}-${this.endPos}` ``. -/
def getBlockId (path : String) (startPos endPos : Nat) : String :=
  path ++ "-" ++ toString startPos ++ "-" ++ toString endPos

/-- `FoldWidget.initializeCodeBlock` (`src/editView.ts:42-70`) as a pure
step: given the static `initializedBlocks` set and the current fold field,
returns the updated set and the deferred force-collapse effect, if one is
dispatched:

```
const blockId = this.getBlockId();
if (FoldWidget.initializedBlocks.has(blockId)) return;
FoldWidget.initializedBlocks.add(blockId);
const frontmatterState = FoldWidget.getFrontmatterCodeBlockState(this.app);
const shouldCollapse = frontmatterState !== null ? frontmatterState : this.settings.defaultCollapsed;
if (shouldCollapse) {
  let isAlreadyFolded = false;
  view.state.field(this.foldField).between(this.startPos, this.endPos, () => { isAlreadyFolded = true; });
  if (!isAlreadyFolded) requestAnimationFrame(() => view.dispatch({effects:
    toggleFoldEffect.of({from: this.startPos, to: this.endPos, defaultState: true})}));
}
```
-/
def initializeCodeBlock (settings : CollapsibleCodeBlockSettings)
    (fm : Option String) (initializedBlocks : List String)
    (folds : List FoldSpan) (path : String) (startPos endPos : Nat) :
    List String × Option ToggleFoldEffect :=
  let blockId := getBlockId path startPos endPos
  if blockId ∈ initializedBlocks then (initializedBlocks, none)
  else
    let initializedBlocks' := blockId :: initializedBlocks
    let shouldCollapse := resolveDefaultFoldState fm settings.defaultCollapsed
    if shouldCollapse then
      if !(isFolded folds startPos endPos) then
        (initializedBlocks', some ⟨startPos, endPos, some true⟩)
      else (initializedBlocks', none)
    else (initializedBlocks', none)

/-- One `toDOM` rendering of a block's widget: which block is rendered and
the fold field at that moment. -/
structure RenderEvent where
  path : String
  startPos : Nat
  endPos : Nat
  folds : List FoldSpan

/-- A sequence of widget renders within one document-open lifetime
(the set is cleared on `file-open` and the render loop then threads it
through every `initializeCodeBlock` call); returns the final set and the
deferred default force-collapse effects, tagged with the block id they were
issued for. -/
def runRenders (settings : CollapsibleCodeBlockSettings) (fm : Option String) :
    List String → List RenderEvent → List String × List (String × ToggleFoldEffect)
  | initSet, [] => (initSet, [])
  | initSet, ev :: evs =>
    let step := initializeCodeBlock settings fm initSet ev.folds ev.path ev.startPos ev.endPos
    let rest := runRenders settings fm step.1 evs
    (rest.1,
      (match step.2 with
       | some e => [(getBlockId ev.path ev.startPos ev.endPos, e)]
       | none => []) ++ rest.2)

/-- How many of the emitted default applications target block `b`. -/
def defaultApplications (emitted : List (String × ToggleFoldEffect)) (b : String) : Nat :=
  (emitted.filter (fun p => p.1 == b)).length

theorem initializeCodeBlock_of_mem {settings : CollapsibleCodeBlockSettings}
    {fm : Option String} {S : List String} {folds : List FoldSpan}
    {path : String} {s e : Nat} (h : getBlockId path s e ∈ S) :
    initializeCodeBlock settings fm S folds path s e = (S, none) := by
  simp only [initializeCodeBlock]
  rw [if_pos h]

theorem initializeCodeBlock_fst_of_not_mem {settings : CollapsibleCodeBlockSettings}
    {fm : Option String} {S : List String} {folds : List FoldSpan}
    {path : String} {s e : Nat} (h : getBlockId path s e ∉ S) :
    (initializeCodeBlock settings fm S folds path s e).1 = getBlockId path s e :: S := by
  simp only [initializeCodeBlock]
  rw [if_neg h]
  split
  · split <;> rfl
  · rfl

theorem initializeCodeBlock_some {settings : CollapsibleCodeBlockSettings}
    {fm : Option String} {S : List String} {folds : List FoldSpan}
    {path : String} {s e : Nat} {eff : ToggleFoldEffect}
    (h : (initializeCodeBlock settings fm S folds path s e).2 = some eff) :
    getBlockId path s e ∉ S ∧
    (initializeCodeBlock settings fm S folds path s e).1 = getBlockId path s e :: S := by
  by_cases hmem : getBlockId path s e ∈ S
  · rw [initializeCodeBlock_of_mem hmem] at h
    simp at h
  · exact ⟨hmem, initializeCodeBlock_fst_of_not_mem hmem⟩

theorem defaultApplications_append (xs ys : List (String × ToggleFoldEffect)) (b : String) :
    defaultApplications (xs ++ ys) b
      = defaultApplications xs b + defaultApplications ys b := by
  simp [defaultApplications, List.filter_append]

theorem defaultApplications_singleton (k : String) (e : ToggleFoldEffect) (b : String) :
    defaultApplications [(k, e)] b = if k == b then 1 else 0 := by
  cases hkb : k == b <;> simp [defaultApplications, hkb]

theorem runRenders_count_zero (settings : CollapsibleCodeBlockSettings)
    (fm : Option String) (b : String) :
    ∀ (evs : List RenderEvent) (S : List String), b ∈ S →
      defaultApplications (runRenders settings fm S evs).2 b = 0 := by
  intro evs
  induction evs with
  | nil => intro S _; rfl
  | cons ev evs ih =>
    intro S hb
    simp only [runRenders]
    rw [defaultApplications_append]
    by_cases hmem : getBlockId ev.path ev.startPos ev.endPos ∈ S
    · rw [initializeCodeBlock_of_mem hmem]
      simpa [defaultApplications] using ih S hb
    · have hbid : getBlockId ev.path ev.startPos ev.endPos ≠ b :=
        fun hc => hmem (hc ▸ hb)
      rw [initializeCodeBlock_fst_of_not_mem hmem]
      cases hs : (initializeCodeBlock settings fm S ev.folds ev.path ev.startPos ev.endPos).2 with
      | none =>
        simpa [defaultApplications]
          using ih _ (List.mem_cons_of_mem _ hb)
      | some eff =>
        have hz := ih (getBlockId ev.path ev.startPos ev.endPos :: S)
          (List.mem_cons_of_mem _ hb)
        show defaultApplications [(getBlockId ev.path ev.startPos ev.endPos, eff)] b
            + defaultApplications (runRenders settings fm
              (getBlockId ev.path ev.startPos ev.endPos :: S) evs).2 b = 0
        rw [defaultApplications_singleton, hz]
        simp [hbid]

theorem runRenders_count_le_one (settings : CollapsibleCodeBlockSettings)
    (fm : Option String) (b : String) :
    ∀ (evs : List RenderEvent) (S : List String),
      defaultApplications (runRenders settings fm S evs).2 b ≤ 1 := by
  intro evs
  induction evs with
  | nil => intro S; simp [runRenders, defaultApplications]
  | cons ev evs ih =>
    intro S
    simp only [runRenders]
    rw [defaultApplications_append]
    cases hs : (initializeCodeBlock settings fm S ev.folds ev.path ev.startPos ev.endPos).2 with
    | none =>
      simpa [defaultApplications] using ih _
    | some eff =>
      obtain ⟨hnotmem, hfst⟩ := initializeCodeBlock_some hs
      rw [hfst]
      by_cases hb : getBlockId ev.path ev.startPos ev.endPos = b
      · have hz := runRenders_count_zero settings fm b evs
          (getBlockId ev.path ev.startPos ev.endPos :: S)
          (by rw [hb]; exact List.mem_cons_self _ _)
        show defaultApplications [(getBlockId ev.path ev.startPos ev.endPos, eff)] b
            + defaultApplications (runRenders settings fm
              (getBlockId ev.path ev.startPos ev.endPos :: S) evs).2 b ≤ 1
        rw [defaultApplications_singleton, hz]
        split <;> omega
      · have hrest := ih (getBlockId ev.path ev.startPos ev.endPos :: S)
        show defaultApplications [(getBlockId ev.path ev.startPos ev.endPos, eff)] b
            + defaultApplications (runRenders settings fm
              (getBlockId ev.path ev.startPos ev.endPos :: S) evs).2 b ≤ 1
        rw [defaultApplications_singleton]
        have hbeq : (getBlockId ev.path ev.startPos ev.endPos == b) = false := by
          simp [hb]
        rw [hbeq]
        simpa using hrest

/-- C3: within one document-open lifetime (the initialization set starts
empty on `file-open` and is threaded through every render), the default
fold state is applied (a deferred force-collapse is dispatched) at most
once per block id, no matter how many times the block is re-rendered; and
once the block's id is in the set — which holds from its first render on,
hence before any manual toggle of it — later renders apply no default at
all. -/
theorem default_state_applied_at_most_once (settings : CollapsibleCodeBlockSettings)
    (fm : Option String) (events : List RenderEvent) (S : List String) (b : String) :
    defaultApplications (runRenders settings fm S events).2 b ≤ 1 ∧
    (b ∈ S → defaultApplications (runRenders settings fm S events).2 b = 0) :=
  ⟨runRenders_count_le_one settings fm b events S,
   fun hb => runRenders_count_zero settings fm b events S hb⟩

/-- Witness for `default_state_applied_at_most_once`: a block whose id is
already recorded gets no default application on a re-render. -/
theorem default_state_applied_at_most_once_witness :
    defaultApplications
      (runRenders ⟨true, "v", "w", true, 3, "left", false⟩ none
        ["f.md-0-10"] [⟨"f.md", 0, 10, []⟩]).2 "f.md-0-10" = 0 :=
  (default_state_applied_at_most_once ⟨true, "v", "w", true, 3, "left", false⟩ none
    [⟨"f.md", 0, 10, []⟩] ["f.md-0-10"] "f.md-0-10").2 (by decide)
